import Mathlib

/-!
Verification of the Grafana access-control core sampled in this repository:
the scope validator `ValidateScope`, the caller-side helpers `HasAccess` and
`HasGlobalAccess`, the permission-map builder `BuildPermissionsMap`
(all from `pkg/services/accesscontrol`), and the dashboard guardian HTTP
response helper `dashboardGuardianResponse` (from `pkg/api/dashboard.go`).

Go strings are byte slices; every scope and separator involved here is ASCII,
so a Go string is embedded as a `List Char`.  A Go function that can panic
(index out of range) is embedded as an `Option`-valued function, `none`
standing for the panic.
-/

namespace Grafana

/-- Embedding of Go `strings.ContainsAny(s, chars)`: true iff some character
of `s` occurs in `chars`. -/
def containsAny (s : List Char) (chars : List Char) : Bool :=
  s.any (fun c => chars.contains c)

/-- Embedding of `ValidateScope` (accesscontrol, part_000 lines 123-133):

    prefix, last := scope[:len(scope)-1], scope[len(scope)-1]
    if len(prefix) > 0 && last == '*' {
        lastChar := prefix[len(prefix)-1]
        if lastChar != ':' && lastChar != '/' { return false }
    }
    return !strings.ContainsAny(prefix, "*?")

On the empty string the Go code indexes past the bounds of the string and
panics; this is embedded as `none`.  The inner `none` branch mirrors the
(unreachable, guarded) indexing of an empty slice. -/
def ValidateScope (scope : List Char) : Option Bool :=
  match scope.getLast? with
  | none => none
  | some last =>
    let pfx := scope.dropLast
    if 0 < pfx.length ∧ last = '*' then
      match pfx.getLast? with
      | none => none
      | some lastChar =>
        if lastChar ≠ ':' ∧ lastChar ≠ '/' then some false
        else some (!containsAny pfx ['*', '?'])
    else some (!containsAny pfx ['*', '?'])

/-- A Go `error` value (only its presence matters to the sampled code). -/
structure Err where
  msg : String
deriving DecidableEq, Repr

/-- The principal carried by a request.  Fields are the ones used by the
sampled source (`OrgId`, `OrgRole`, `OrgName`, `IsGrafanaAdmin`) together
with the identity fields the spec lists for a principal (user ID, team
memberships, login). -/
structure SignedInUser where
  userId : Int
  orgId : Int
  orgRole : String
  orgName : String
  login : String
  isGrafanaAdmin : Bool
  teams : List Int
deriving DecidableEq, Repr

/-- The request context handed to the helpers.  The Go `models.ReqContext`
embeds a `*SignedInUser`; the logger and the HTTP request are side-effect
carriers outside this embedding. -/
structure ReqContext where
  signedInUser : SignedInUser
  isSignedIn : Bool
deriving DecidableEq, Repr

/-- Modelled from the spec: the sentinel "global" organization ID that
`HasGlobalAccess` substitutes for the principal's organization (the constant
itself is declared outside the sampled source). -/
def GlobalOrgID : Int := 0

/-- Embedding of the `AccessControl` engine interface, restricted to the two
members the sampled helpers use.  `evaluate` returns a Go `(bool, error)`
pair; `isDisabled` is the global kill-switch. -/
structure AccessControl (Ev : Type) where
  evaluate : SignedInUser → Ev → Bool × Option Err
  isDisabled : Bool

/-- Embedding of `HasGlobalAccess` (part_000 lines 57-75).  The Go function
returns a closure over `(fallback, evaluator)`; currying makes it a
four-argument function.  `userCopy := *c.SignedInUser` is a value copy,
then `OrgId`, `OrgRole` and `OrgName` are overwritten in turn. -/
def HasGlobalAccess {Ev : Type} (ac : AccessControl Ev) (c : ReqContext)
    (fallback : ReqContext → Bool) (evaluator : Ev) : Bool :=
  if ac.isDisabled then fallback c
  else
    let userCopy := c.signedInUser
    let userCopy := { userCopy with orgId := GlobalOrgID }
    let userCopy := { userCopy with orgRole := "" }
    let userCopy := { userCopy with orgName := "" }
    let r := ac.evaluate userCopy evaluator
    if r.2.isSome then false else r.1

/-- Embedding of `HasAccess` (part_000 lines 77-91): evaluate with the
request's own signed-in principal; an error denies. -/
def HasAccess {Ev : Type} (ac : AccessControl Ev) (c : ReqContext)
    (fallback : ReqContext → Bool) (evaluator : Ev) : Bool :=
  if ac.isDisabled then fallback c
  else
    let r := ac.evaluate c.signedInUser evaluator
    if r.2.isSome then false else r.1

/-- Embedding of the `ReqGrafanaAdmin` fallback predicate (part_000
lines 93-95). -/
def ReqGrafanaAdmin : ReqContext → Bool := fun c => c.signedInUser.isGrafanaAdmin

/-- A permission: an `(Action, Scope)` grant. -/
structure Permission where
  action : String
  scope : String
deriving DecidableEq, Repr

/-- Go map assignment `m[k] = v` on a `map[string]bool`, with the map
embedded as an association list: the binding for `k` is replaced (or
created); all other bindings are kept. -/
def mapSet (m : List (String × Bool)) (k : String) (v : Bool) :
    List (String × Bool) :=
  (k, v) :: m.filter (fun kv => kv.1 ≠ k)

/-- Embedding of `BuildPermissionsMap` (part_000 lines 101-108): start from
an empty map and set `m[p.Action] = true` for each permission in order. -/
def BuildPermissionsMap (permissions : List Permission) :
    List (String × Bool) :=
  permissions.foldl (fun m p => mapSet m p.action true) []

/-- Modelled from the spec: `ApiError` (declared outside the sampled source)
builds the HTTP-layer error response carrying a status code, a message and
an optional underlying error, which the (out of scope) HTTP layer marshals
to JSON. -/
structure Response where
  status : Nat
  message : String
  err : Option Err
deriving DecidableEq, Repr

/-- Modelled from the spec: the `ApiError` response constructor. -/
def ApiError (status : Nat) (message : String) (err : Option Err) : Response :=
  ⟨status, message, err⟩

/-- Embedding of `dashboardGuardianResponse` (pkg/api/dashboard.go
lines 38-44): a non-nil error yields a 500, a nil error a 403. -/
def dashboardGuardianResponse (err : Option Err) : Response :=
  if err.isSome then ApiError 500 "Error while checking dashboard permissions" err
  else ApiError 403 "Access denied to this dashboard" none

/-! ### Helper lemmas for the scope validator -/

/-- A one-character scope is always accepted: the prefix is empty, so both
the wildcard guard and the `ContainsAny` test are vacuous. -/
lemma validateScope_single (c : Char) : ValidateScope [c] = some true := by
  simp [ValidateScope, containsAny]

/-- Evaluation of `ValidateScope` on a scope of length at least two, split as
`l ++ [c] ++ [z]` with `c` the character preceding the final character `z`. -/
lemma validateScope_concat (l : List Char) (c z : Char) :
    ValidateScope ((l ++ [c]) ++ [z]) =
      if z = '*' then
        if c ≠ ':' ∧ c ≠ '/' then some false
        else some (!containsAny (l ++ [c]) ['*', '?'])
      else some (!containsAny (l ++ [c]) ['*', '?']) := by
  simp only [ValidateScope, List.getLast?_concat, List.dropLast_concat]
  by_cases hz : z = '*'
  · simp [hz]
  · simp [hz]

/-- If some character of `s` is `'*'` or `'?'`, then `containsAny s "*?"`. -/
lemma containsAny_of_mem {s : List Char} {x : Char} (hx : x ∈ s)
    (hc : x = '*' ∨ x = '?') : containsAny s ['*', '?'] = true := by
  simp only [containsAny, List.any_eq_true]
  exact ⟨x, hx, by rcases hc with h | h <;> simp [h]⟩

/-- If no character of `s` is `'*'` or `'?'`, then `containsAny s "*?"` is
false. -/
lemma containsAny_eq_false {s : List Char}
    (h : ∀ x ∈ s, x ≠ '*' ∧ x ≠ '?') : containsAny s ['*', '?'] = false := by
  simp only [containsAny, List.any_eq_false]
  intro x hx
  have := h x hx
  simp [this.1, this.2]

/-! ### Claims about the scope validator -/

/-- C1, counterexample: the scope `"*:*"` ends in `'*'` and the character
immediately preceding the wildcard is `':'`, yet `ValidateScope` returns
false (the prefix `"*:"` contains an embedded `'*'`), refuting the claim
that every such scope is accepted. -/
theorem validateScope_claim1_counterexample :
    (['*', ':', '*'] : List Char).getLast? = some '*' ∧
    (['*', ':', '*'] : List Char).dropLast.getLast? = some ':' ∧
    ValidateScope ['*', ':', '*'] = some false := by
  decide

/-- C1, amended: for every scope ending in `'*'` whose preceding character is
`':'` or `'/'`, `ValidateScope` returns true provided the part before the
final `'*'` contains no `'*'` or `'?'`; for every scope ending in `'*'`
whose preceding character is any other character, `ValidateScope` returns
false. -/
theorem validateScope_trailing_wildcard (l : List Char) (c : Char) :
    ((c = ':' ∨ c = '/') → containsAny (l ++ [c]) ['*', '?'] = false →
        ValidateScope ((l ++ [c]) ++ ['*']) = some true) ∧
    ((c ≠ ':' ∧ c ≠ '/') → ValidateScope ((l ++ [c]) ++ ['*']) = some false) := by
  constructor
  · intro hc hclean
    rw [validateScope_concat]
    rcases hc with h | h <;> subst h <;> simp [hclean]
  · intro hc
    rw [validateScope_concat]
    simp [hc]

/-- Witness for the amended C1 at the concrete scopes `"d:*"` (accepted) and
`"id*"` (rejected). -/
theorem validateScope_trailing_wildcard_witness :
    ValidateScope ((['d'] ++ [':']) ++ ['*']) = some true ∧
    ValidateScope ((['i'] ++ ['d']) ++ ['*']) = some false :=
  ⟨(validateScope_trailing_wildcard ['d'] ':').1 (Or.inl rfl) (by decide),
   (validateScope_trailing_wildcard ['i'] 'd').2 (by decide)⟩

/-- C2, counterexample: the one-character scope `"*"` ends in `'*'` with no
preceding separator, yet `ValidateScope` accepts it (the `len(prefix) > 0`
guard skips the separator check), refuting the claim that such a scope is
never accepted. -/
theorem validateScope_claim2_counterexample :
    (['*'] : List Char).getLast? = some '*' ∧
    (['*'] : List Char).dropLast = [] ∧
    ValidateScope ['*'] = some true := by
  decide

/-- C2, amended: for every scope of length at least two that `ValidateScope`
accepts and whose last character is `'*'`, the character preceding the
wildcard is `':'` or `'/'`; the one-character scope `"*"`, which has no
preceding character, is accepted. -/
theorem validateScope_wildcard_separator :
    (∀ (l : List Char) (c : Char),
        ValidateScope ((l ++ [c]) ++ ['*']) = some true → c = ':' ∨ c = '/') ∧
    ValidateScope ['*'] = some true := by
  constructor
  · intro l c h
    rw [validateScope_concat] at h
    by_cases hc : c ≠ ':' ∧ c ≠ '/'
    · simp [hc] at h
    · rcases not_and_or.mp hc with h1 | h1
      · exact Or.inl (not_not.mp h1)
      · exact Or.inr (not_not.mp h1)
  · decide

/-- Witness for the amended C2 at the accepted scope `"a:*"`. -/
theorem validateScope_wildcard_separator_witness : ':' = ':' ∨ ':' = '/' :=
  validateScope_wildcard_separator.1 ['a'] ':' (by decide)

/-- C3, counterexample: on the empty string `ValidateScope` indexes past the
bounds of the string (a Go panic, embedded as `none`); it does not return an
invalid-scope result, refuting the claim that the function is total on all
strings. -/
theorem validateScope_claim3_counterexample : ValidateScope [] = none := rfl

/-- C3, amended: `ValidateScope` is total and panic-free on every non-empty
scope string; only the empty string reaches the out-of-bounds index. -/
theorem validateScope_total_nonempty (scope : List Char) (h : scope ≠ []) :
    (ValidateScope scope).isSome = true := by
  rcases List.eq_nil_or_concat' scope with rfl | ⟨l, z, rfl⟩
  · exact absurd rfl h
  · rcases List.eq_nil_or_concat' l with rfl | ⟨l2, c, rfl⟩
    · simp [validateScope_single]
    · rw [validateScope_concat]
      by_cases hz : z = '*' <;> by_cases hc : c ≠ ':' ∧ c ≠ '/' <;>
        simp [hz, hc]

/-- Witness for the amended C3 at the one-character scope `"x"`. -/
theorem validateScope_total_nonempty_witness :
    (ValidateScope ['x']).isSome = true :=
  validateScope_total_nonempty ['x'] (by decide)

/-- C4: every scope containing a `'*'` or a `'?'` at some position before its
final character is rejected by `ValidateScope`. -/
theorem validateScope_rejects_embedded_wildcard (scope : List Char) (x : Char)
    (hx : x ∈ scope.dropLast) (hw : x = '*' ∨ x = '?') :
    ValidateScope scope = some false := by
  rcases List.eq_nil_or_concat' scope with rfl | ⟨l, z, rfl⟩
  · simp at hx
  · rw [List.dropLast_concat] at hx
    rcases List.eq_nil_or_concat' l with rfl | ⟨l2, c, rfl⟩
    · simp at hx
    · rw [validateScope_concat]
      have hca : containsAny (l2 ++ [c]) ['*', '?'] = true :=
        containsAny_of_mem hx hw
      by_cases hz : z = '*' <;> by_cases hc : c ≠ ':' ∧ c ≠ '/' <;>
        simp [hz, hc, hca]

/-- Witness for C4 at the concrete scope `"d*b"`, whose `'*'` sits before the
final character. -/
theorem validateScope_rejects_embedded_wildcard_witness :
    ValidateScope ['d', '*', 'b'] = some false :=
  validateScope_rejects_embedded_wildcard ['d', '*', 'b'] '*' (by decide)
    (by decide)

/-- C10: a non-empty scope whose last character is `'?'` and whose preceding
characters contain no `'*'` and no `'?'` is accepted by `ValidateScope`: the
wildcard guard only fires for a trailing `'*'`, and the `ContainsAny` test
inspects only the prefix. -/
theorem validateScope_accepts_trailing_question (scope : List Char)
    (hlast : scope.getLast? = some '?')
    (hclean : ∀ x ∈ scope.dropLast, x ≠ '*' ∧ x ≠ '?') :
    ValidateScope scope = some true := by
  rcases List.eq_nil_or_concat' scope with rfl | ⟨l, z, rfl⟩
  · simp at hlast
  · rw [List.getLast?_concat] at hlast
    have hz : z = '?' := by simpa using hlast
    subst hz
    rw [List.dropLast_concat] at hclean
    rcases List.eq_nil_or_concat' l with rfl | ⟨l2, c, rfl⟩
    · exact validateScope_single _
    · rw [validateScope_concat]
      have hca : containsAny (l2 ++ [c]) ['*', '?'] = false :=
        containsAny_eq_false hclean
      simp [hca]

/-- Witness for C10 at the concrete scope `"ab?"`. -/
theorem validateScope_accepts_trailing_question_witness :
    ValidateScope ['a', 'b', '?'] = some true :=
  validateScope_accepts_trailing_question ['a', 'b', '?'] (by decide)
    (by decide)

/-! ### Helper lemmas for the access-control helpers -/

/-- Characterization of `HasAccess` when the engine is enabled. -/
lemma hasAccess_enabled {Ev : Type} (ac : AccessControl Ev) (c : ReqContext)
    (fallback : ReqContext → Bool) (evaluator : Ev)
    (hdis : ac.isDisabled = false) :
    HasAccess ac c fallback evaluator =
      (if (ac.evaluate c.signedInUser evaluator).2.isSome then false
       else (ac.evaluate c.signedInUser evaluator).1) := by
  simp [HasAccess, hdis]

/-- Characterization of `HasGlobalAccess` when the engine is enabled: the
principal handed to `evaluate` is the signed-in principal with `OrgId`
replaced by the global sentinel and `OrgRole` and `OrgName` cleared. -/
lemma hasGlobalAccess_enabled {Ev : Type} (ac : AccessControl Ev)
    (c : ReqContext) (fallback : ReqContext → Bool) (evaluator : Ev)
    (hdis : ac.isDisabled = false) :
    HasGlobalAccess ac c fallback evaluator =
      (let r := ac.evaluate
          { c.signedInUser with
              orgId := GlobalOrgID, orgRole := "", orgName := "" } evaluator
       if r.2.isSome then false else r.1) := by
  simp [HasGlobalAccess, hdis]

/-! ### Claims about the access-control helpers -/

/-- C5: with the engine enabled, whenever a helper's own `Evaluate` call
reports an error, that helper denies (`HasAccess` and `HasGlobalAccess`
are fail-closed; `HasGlobalAccess` evaluates with the org-stripped copy of
the principal). -/
theorem hasAccess_error_denies {Ev : Type} (ac : AccessControl Ev)
    (c : ReqContext) (fallback : ReqContext → Bool) (evaluator : Ev)
    (hdis : ac.isDisabled = false) :
    ((ac.evaluate c.signedInUser evaluator).2.isSome = true →
        HasAccess ac c fallback evaluator = false) ∧
    ((ac.evaluate
        { c.signedInUser with
            orgId := GlobalOrgID, orgRole := "", orgName := "" }
        evaluator).2.isSome = true →
        HasGlobalAccess ac c fallback evaluator = false) := by
  constructor
  · intro herr
    rw [hasAccess_enabled ac c fallback evaluator hdis, herr]
    simp
  · intro herr
    rw [hasGlobalAccess_enabled ac c fallback evaluator hdis]
    simp only [herr]
    simp

/-- A concrete principal used by the witnesses and counterexamples. -/
def probeUser : SignedInUser :=
  { userId := 1, orgId := 2, orgRole := "Admin", orgName := "acme",
    login := "bob", isGrafanaAdmin := false, teams := [] }

/-- A concrete request context around `probeUser`. -/
def probeCtx : ReqContext := { signedInUser := probeUser, isSignedIn := true }

/-- An enabled engine whose `Evaluate` always reports an error (with the
allow flag set to true, so a leak would be visible). -/
def failingAC : AccessControl Unit :=
  { evaluate := fun _ _ => (true, some ⟨"store unreachable"⟩),
    isDisabled := false }

/-- Witness for C5: with `failingAC`, both helpers deny even though the
evaluation flag was true and the fallback would allow. -/
theorem hasAccess_error_denies_witness :
    HasAccess failingAC probeCtx (fun _ => true) () = false ∧
    HasGlobalAccess failingAC probeCtx (fun _ => true) () = false :=
  ⟨(hasAccess_error_denies failingAC probeCtx (fun _ => true) () rfl).1 rfl,
   (hasAccess_error_denies failingAC probeCtx (fun _ => true) () rfl).2 rfl⟩

/-- C6: with the engine disabled, both helpers return exactly the fallback
predicate applied to the request context, and the result does not depend on
the engine's `evaluate` function (it is never invoked). -/
theorem hasAccess_disabled_uses_fallback {Ev : Type} (ac : AccessControl Ev)
    (c : ReqContext) (fallback : ReqContext → Bool) (evaluator : Ev)
    (hdis : ac.isDisabled = true) :
    HasAccess ac c fallback evaluator = fallback c ∧
    HasGlobalAccess ac c fallback evaluator = fallback c ∧
    ∀ g : SignedInUser → Ev → Bool × Option Err,
      HasAccess { ac with evaluate := g } c fallback evaluator = fallback c ∧
      HasGlobalAccess { ac with evaluate := g } c fallback evaluator =
        fallback c := by
  refine ⟨?_, ?_, fun g => ⟨?_, ?_⟩⟩ <;>
    simp [HasAccess, HasGlobalAccess, hdis]

/-- A disabled engine whose `Evaluate` would allow, so that any accidental
use of the engine instead of the fallback would be visible. -/
def disabledAC : AccessControl Unit :=
  { evaluate := fun _ _ => (true, none), isDisabled := true }

/-- Witness for C6: with `disabledAC` both helpers return the
`ReqGrafanaAdmin` fallback applied to the request context. -/
theorem hasAccess_disabled_uses_fallback_witness :
    HasAccess disabledAC probeCtx ReqGrafanaAdmin () =
      ReqGrafanaAdmin probeCtx ∧
    HasGlobalAccess disabledAC probeCtx ReqGrafanaAdmin () =
      ReqGrafanaAdmin probeCtx :=
  ⟨(hasAccess_disabled_uses_fallback disabledAC probeCtx ReqGrafanaAdmin ()
      rfl).1,
   (hasAccess_disabled_uses_fallback disabledAC probeCtx ReqGrafanaAdmin ()
      rfl).2.1⟩

/-- An enabled engine whose evaluation result records whether the
organization name it was handed still reads `"acme"`. -/
def orgNameProbeAC : AccessControl Unit :=
  { evaluate := fun u _ => (u.orgName == "acme", none), isDisabled := false }

/-- C7, counterexample: under the claim, the principal handed to `Evaluate`
differs from `probeUser` only in `OrgId` and `OrgRole`, so with
`orgNameProbeAC` (which allows iff the organization name is still `"acme"`)
the helper would return true; the code returns false, because
`HasGlobalAccess` also clears `OrgName` (part_000 line 66). -/
theorem hasGlobalAccess_claim7_counterexample :
    (let r := orgNameProbeAC.evaluate
        { probeCtx.signedInUser with orgId := GlobalOrgID, orgRole := "" } ()
     if r.2.isSome then false else r.1) = true ∧
    probeCtx.signedInUser.orgName = "acme" ∧
    HasGlobalAccess orgNameProbeAC probeCtx (fun _ => false) () = false := by
  refine ⟨by decide, rfl, by decide⟩

/-- C7, amended: with the engine enabled, `HasGlobalAccess` evaluates with a
copy of the signed-in principal that differs only in that `OrgId` is
replaced by the global sentinel, `OrgRole` is cleared, and `OrgName` is
cleared; every other field is unchanged, and the original principal (a value
copy was taken) is untouched. -/
theorem hasGlobalAccess_strips_org {Ev : Type} (ac : AccessControl Ev)
    (c : ReqContext) (fallback : ReqContext → Bool) (evaluator : Ev)
    (hdis : ac.isDisabled = false) :
    HasGlobalAccess ac c fallback evaluator =
      (let r := ac.evaluate
          { c.signedInUser with
              orgId := GlobalOrgID, orgRole := "", orgName := "" } evaluator
       if r.2.isSome then false else r.1) :=
  hasGlobalAccess_enabled ac c fallback evaluator hdis

/-- Witness for the amended C7 at the concrete probe engine. -/
theorem hasGlobalAccess_strips_org_witness :
    HasGlobalAccess orgNameProbeAC probeCtx (fun _ => false) () =
      (let r := orgNameProbeAC.evaluate
          { probeCtx.signedInUser with
              orgId := GlobalOrgID, orgRole := "", orgName := "" } ()
       if r.2.isSome then false else r.1) :=
  hasGlobalAccess_strips_org orgNameProbeAC probeCtx (fun _ => false) () rfl

/-! ### Claims about the permissions map -/

/-- Unfolding `List.lookup` over a cons cell, with propositional equality in
place of the boolean key comparison. -/
lemma lookup_cons_pair (a : String) (b : Bool) (t : List (String × Bool))
    (q : String) :
    ((a, b) :: t).lookup q = if q = a then some b else t.lookup q := by
  simp only [List.lookup]
  by_cases h : q = a
  · simp [h]
  · simp [h, beq_eq_false_iff_ne.mpr h]

/-- Dropping all bindings for key `k` does not change lookups of other
keys. -/
lemma lookup_filter_ne (m : List (String × Bool)) (k q : String)
    (hq : q ≠ k) :
    (m.filter (fun kv => kv.1 ≠ k)).lookup q = m.lookup q := by
  induction m with
  | nil => rfl
  | cons a t ih =>
    obtain ⟨a1, a2⟩ := a
    rw [List.filter_cons]
    by_cases ha : a1 = k
    · subst ha
      rw [if_neg (by simp)]
      rw [ih, lookup_cons_pair, if_neg hq]
    · rw [if_pos (by simp [ha])]
      rw [lookup_cons_pair, lookup_cons_pair]
      by_cases hqa : q = a1
      · simp [hqa]
      · rw [if_neg hqa, if_neg hqa]
        simpa using ih

/-- Go map assignment, seen through `lookup`: the assigned key now maps to
the assigned value and all other keys are unchanged. -/
lemma lookup_mapSet (m : List (String × Bool)) (k q : String) (v : Bool) :
    (mapSet m k v).lookup q = if q = k then some v else m.lookup q := by
  unfold mapSet
  rw [lookup_cons_pair]
  by_cases hq : q = k
  · simp [hq]
  · rw [if_neg hq, if_neg hq, lookup_filter_ne m k q hq]

/-- The `BuildPermissionsMap` fold, generalized over the accumulator. -/
lemma lookup_foldl_mapSet (perms : List Permission)
    (m : List (String × Bool)) (k : String) :
    (perms.foldl (fun acc p => mapSet acc p.action true) m).lookup k =
      if k ∈ perms.map Permission.action then some true
      else m.lookup k := by
  induction perms generalizing m with
  | nil => simp
  | cons p t ih =>
    simp only [List.foldl_cons, List.map_cons, List.mem_cons]
    rw [ih]
    by_cases hk : k ∈ t.map Permission.action
    · simp [hk]
    · by_cases hkp : k = p.action
      · simp [hk, hkp, lookup_mapSet]
      · simp [hk, hkp, lookup_mapSet]

/-- C8: the map built by `BuildPermissionsMap` has as keys exactly the action
strings occurring in the permission list, each bound to `true` and nothing
else; in particular on `[{A,X},{A,Y},{B,X}]` the keys are exactly `A` and
`B`, both bound to `true`. -/
theorem buildPermissionsMap_action_keys :
    (∀ (perms : List Permission) (k : String),
        (BuildPermissionsMap perms).lookup k =
          if k ∈ perms.map Permission.action then some true else none) ∧
    BuildPermissionsMap [⟨"A", "X"⟩, ⟨"A", "Y"⟩, ⟨"B", "X"⟩] =
      [("B", true), ("A", true)] := by
  constructor
  · intro perms k
    rw [BuildPermissionsMap, lookup_foldl_mapSet]
    rfl
  · decide

/-! ### Claim about the dashboard guardian response -/

/-- C9: `dashboardGuardianResponse` maps a non-nil guardian error to a 500
internal-failure response and a nil error (plain permission denial) to a 403
access-denied response, for every input error value. -/
theorem dashboardGuardianResponse_status (e : Option Err) :
    (dashboardGuardianResponse e).status = if e.isSome then 500 else 403 := by
  cases e <;> rfl

end Grafana
